import Mathlib

/-!
Verification of the streaming aggregation consumer
(src/consumers/consumer_dowdle.py).

The consumer pulls JSON messages from a topic, extracts the
`keyword_mentioned` field, and keeps a per-keyword occurrence count in two
sinks: a durable SQLite table `keyword_counts` (updated by an upsert) and a
JSON snapshot file rewritten in full on every event.  The embedding below
translates each Python function into a Lean definition over an explicit
state; JSON scalar values are modelled by `JVal`, a message by an
association list of fields, and each file on disk by an `Option` (absent
file = `none`).
-/

namespace ConsumerDowdle

/-- A JSON scalar value, as can appear in a decoded message field.
Python truthiness of these values is what `if not keyword:` tests. -/
inductive JVal where
  | jnull
  | jbool (b : Bool)
  | jnum (n : Int)
  | jstr (s : String)
deriving DecidableEq, Repr

/-- Python truthiness of a JSON scalar: `None`, `False`, `0` and the empty
string are falsy, everything else is truthy. -/
def truthy : JVal → Bool
  | .jnull => false
  | .jbool b => b
  | .jnum n => n != 0
  | .jstr s => s != ""

/-- Truthiness of `message.get(...)`: Python's `dict.get` returns `None`
when the key is absent, and `None` is falsy. -/
def truthyOpt : Option JVal → Bool
  | none => false
  | some v => truthy v

/-- A decoded message: a JSON object, i.e. a finite list of string-keyed
fields (first occurrence of a key wins, as Python dicts have unique keys). -/
abbrev Message := List (String × JVal)

/-- `message.get(key)`: the value at `key`, or `none` when absent. -/
def Message.get (m : Message) (key : String) : Option JVal :=
  match m with
  | [] => none
  | (k, v) :: rest => if k = key then some v else Message.get rest key

/-- `message.get("keyword_mentioned")` as done by `process_message`. -/
def extractKeyword (m : Message) : Option JVal :=
  Message.get m "keyword_mentioned"

/-- A valid event: the `keyword_mentioned` field is present and is a
non-empty string. -/
def validEvent (m : Message) : Bool :=
  match extractKeyword m with
  | some (JVal.jstr s) => s != ""
  | _ => false

/-- Number of occurrences of keyword `k` among the events of a sequence. -/
def occ (k : JVal) (msgs : List Message) : Nat :=
  msgs.countP (fun m => decide (extractKeyword m = some k))

/-- State of one consumer run after startup: the content of the SQLite
table `keyword_counts` (a row `(k, c)` with `c ≥ 1` is `table k = c`,
an absent row is `table k = 0`), and the snapshot JSON file
(`none` = the file does not exist). -/
structure RunState where
  table : JVal → Nat
  jsonFile : Option (JVal → Nat)

/-- The mapping an external reader of the snapshot file sees: an absent
file reads as the empty mapping (as `update_json_file` itself assumes:
`counts = {}` when the path does not exist). -/
def jsonRead (st : RunState) (k : JVal) : Nat :=
  (st.jsonFile.getD (fun _ => 0)) k

/-- `update_keyword_count(db_path, keyword)`: the SQL upsert
`INSERT ... VALUES (?, 1) ON CONFLICT(keyword) DO UPDATE SET count = count + 1`.
An unseen keyword (count 0 in the model) gets count 1; an existing row
gets its count incremented by 1 — in both cases the new count is the old
count plus one, and no other row changes. -/
def update_keyword_count (table : JVal → Nat) (keyword : JVal) : JVal → Nat :=
  fun k => if k = keyword then table k + 1 else table k

/-- `update_json_file(json_path, keyword)`: load the current document if
the file exists (else start from the empty dict), set
`counts[keyword] = counts.get(keyword, 0) + 1`, and return the document
written back in full. -/
def update_json_file (jsonFile : Option (JVal → Nat)) (keyword : JVal) : JVal → Nat :=
  let counts := jsonFile.getD (fun _ => 0)
  fun k => if k = keyword then counts k + 1 else counts k

/-- `process_message(message)`: read `keyword_mentioned`; when it is
missing or falsy, log a warning and return with no store touched;
otherwise update the SQLite table first, then the JSON snapshot file. -/
def process_message (st : RunState) (message : Message) : RunState :=
  match Message.get message "keyword_mentioned" with
  | none => st
  | some keyword =>
    if truthy keyword then
      { table := update_keyword_count st.table keyword,
        jsonFile := some (update_json_file st.jsonFile keyword) }
    else st

/-- The consumption loop of `consume_messages`:
`for record in consumer: process_message(record.value)`, applied to a
finite prefix of the feed. -/
def consume_messages (st : RunState) (msgs : List Message) : RunState :=
  msgs.foldl process_message st

/-- The state right after `main`'s startup: both prior files were deleted
and `init_db` created an empty `keyword_counts` table, so every count is 0
and the snapshot file does not exist. -/
def startupRun : RunState :=
  { table := fun _ => 0, jsonFile := none }

/-- The on-disk state outside a run: the SQLite database file and the JSON
snapshot file, each possibly absent. -/
structure FS where
  sqliteFile : Option (JVal → Nat)
  jsonFile : Option (JVal → Nat)

/-- `init_db(db_path)`: `sqlite3.connect` creates the database file when
absent, and `CREATE TABLE IF NOT EXISTS keyword_counts` creates an empty
table only when none exists — an existing table is kept as is. -/
def init_db (fs : FS) : FS :=
  { fs with sqliteFile := some (fs.sqliteFile.getD (fun _ => 0)) }

/-- The startup sequence of `main`: unlink the SQLite file if it exists,
unlink the JSON file if it exists, then `init_db`. -/
def main_startup (fs : FS) : FS :=
  let fs1 : FS := { fs with sqliteFile := none }
  let fs2 : FS := { fs1 with jsonFile := none }
  init_db fs2

/-- The durable mapping an observer reads from the file system: absent
database (or absent row) reads as count 0. -/
def FS.tableRead (fs : FS) (k : JVal) : Nat :=
  (fs.sqliteFile.getD (fun _ => 0)) k

/-- The snapshot mapping an observer reads from the file system. -/
def FS.jsonReadFS (fs : FS) (k : JVal) : Nat :=
  (fs.jsonFile.getD (fun _ => 0)) k

/-- A raw record on the topic: either bytes that do not parse as JSON, or
a well-formed JSON object. -/
inductive Raw where
  | malformed
  | wellFormed (m : Message)

/-- The value deserializer passed to the consumer,
`lambda x: json.loads(x.decode("utf-8"))`: on malformed bytes
`json.loads` raises a JSONDecodeError, modelled as `Except.error`. -/
def decodeRaw : Raw → Except String Message
  | .malformed => .error "JSONDecodeError"
  | .wellFormed m => .ok m

/-- The consumption loop with exception propagation.  In
`consume_messages` the deserializer runs inside the `for record in
consumer` iteration and there is no try/except anywhere in the function,
so a raised exception aborts the loop and the remaining records are never
processed. -/
def consume_messages_exc (st : RunState) : List Raw → Except String RunState
  | [] => .ok st
  | r :: rest =>
    match decodeRaw r with
    | .error e => .error e
    | .ok m => consume_messages_exc (process_message st m) rest

/-- Whether the loop ran to completion without a propagated exception
(when `false`, the process terminated). -/
def exceptOk : Except String RunState → Bool
  | .ok _ => true
  | .error _ => false

/-- The intermediate states during one `process_message` call, in
execution order: the entry state; the state after `update_keyword_count`
returns (the SQLite upsert is committed, the JSON file not yet rewritten);
the state after `update_json_file` returns.  A skipped event never leaves
the entry state. -/
def process_message_trace (st : RunState) (message : Message) : List RunState :=
  match Message.get message "keyword_mentioned" with
  | none => [st]
  | some keyword =>
    if truthy keyword then
      [st,
       { st with table := update_keyword_count st.table keyword },
       { table := update_keyword_count st.table keyword,
         jsonFile := some (update_json_file st.jsonFile keyword) }]
    else [st]

/-- The snapshot never leads the durable table, and the table leads the
snapshot by at most one increment, at at most one keyword. -/
def leadBounded (s : RunState) : Prop :=
  (∀ k, jsonRead s k ≤ s.table k) ∧
    ∃ k0, s.table k0 ≤ jsonRead s k0 + 1 ∧
      ∀ k, k ≠ k0 → s.table k = jsonRead s k

/-- Every intermediate point of one event's processing satisfies the lead
bound. -/
def traceLeadOK (st : RunState) (message : Message) : Prop :=
  ∀ s ∈ process_message_trace st message, leadBounded s

/-- Observable contents of the snapshot artifact, as a concurrent reader
may see them. -/
inductive FileObs where
  | doc (m : JVal → Nat)
  | truncated

/-- The contents of the snapshot file a concurrent reader can observe
while `update_json_file` writes it.  The write is done in place with
`open(json_path, "w")` followed by `json.dump(counts, f, indent=4)`: the
`open` call truncates the file immediately, and only then is the new
document written out, so between the two the file holds no complete
document. -/
def writeObservables (jsonFile : Option (JVal → Nat)) (keyword : JVal) :
    List FileObs :=
  [FileObs.truncated, FileObs.doc (update_json_file jsonFile keyword)]

/-- The claimed property, stated from the spec for comparison with the
code's write sequence: every content observable during the write is some
complete document — the write is an atomic replacement. -/
def atomicReplacement (jsonFile : Option (JVal → Nat)) (keyword : JVal) : Prop :=
  ∀ obs ∈ writeObservables jsonFile keyword, ∃ m, obs = FileObs.doc m

/-! Concrete example events used by the witnesses. -/

/-- An event mentioning the keyword python. -/
def evPython : Message := [("keyword_mentioned", JVal.jstr "python")]

/-- An event mentioning the keyword rust. -/
def evRust : Message := [("keyword_mentioned", JVal.jstr "rust")]

/-- The example sequence python, python, rust. -/
def exSeq : List Message := [evPython, evPython, evRust]

/-- A well-formed payload that lacks the `keyword_mentioned` field. -/
def evFooBar : Message := [("foo", JVal.jstr "bar")]

/-- A payload whose `keyword_mentioned` field is JSON null. -/
def evNull : Message := [("keyword_mentioned", JVal.jnull)]

/-- A payload whose `keyword_mentioned` field is the number 0. -/
def evZero : Message := [("keyword_mentioned", JVal.jnum 0)]

/-- A payload whose `keyword_mentioned` field is the boolean false. -/
def evFalse : Message := [("keyword_mentioned", JVal.jbool false)]

/-! ## Helper lemmas -/

/-- Processing a valid event adds exactly 1 to the table count of its
keyword and leaves every other count unchanged. -/
lemma process_message_table_step (st : RunState) (m : Message) (k : JVal)
    (hv : validEvent m = true) :
    (process_message st m).table k =
      st.table k + (if extractKeyword m = some k then 1 else 0) := by
  unfold validEvent at hv
  rcases hex : extractKeyword m with _ | v
  · rw [hex] at hv; simp at hv
  · rw [hex] at hv
    have hget : Message.get m "keyword_mentioned" = some v := hex
    cases v with
    | jnull => simp at hv
    | jbool b => simp at hv
    | jnum n => simp at hv
    | jstr s =>
      have ht : truthy (JVal.jstr s) = true := by
        simpa [truthy] using hv
      simp only [process_message, hget, ht, if_true, update_keyword_count]
      by_cases hk : k = JVal.jstr s
      · subst hk; simp
      · have hne : ¬ (some (JVal.jstr s) = some k) := by
          intro hc; exact hk (Option.some.inj hc).symm
        simp [hk, hne]

/-- Over a sequence of valid events, the final table count of any keyword
is the initial count plus the number of occurrences in the sequence. -/
lemma consume_messages_table_occ (msgs : List Message) (st : RunState) (k : JVal)
    (hv : msgs.all validEvent = true) :
    (consume_messages st msgs).table k = st.table k + occ k msgs := by
  induction msgs generalizing st with
  | nil => simp [consume_messages, occ]
  | cons m rest ih =>
    simp only [List.all_cons, Bool.and_eq_true] at hv
    have hstep := process_message_table_step st m k hv.1
    have hrest := ih (process_message st m) hv.2
    simp only [consume_messages, List.foldl_cons] at hrest ⊢
    rw [hrest, hstep]
    simp only [occ, List.countP_cons, decide_eq_true_eq]
    omega

/-- `process_message` keeps the snapshot document equal to the table:
either both sinks are incremented at the same keyword, or neither is. -/
lemma process_message_preserves_agree (st : RunState) (m : Message)
    (h : ∀ k, jsonRead st k = st.table k) :
    ∀ k, jsonRead (process_message st m) k = (process_message st m).table k := by
  intro k
  rcases hget : Message.get m "keyword_mentioned" with _ | v
  · simp only [process_message, hget]
    exact h k
  · by_cases ht : truthy v = true
    · simp only [process_message, hget, ht, if_true, jsonRead, update_json_file,
        update_keyword_count, Option.getD_some]
      by_cases hk : k = v
      · subst hk
        have hk2 : st.jsonFile.getD (fun _ => 0) k = st.table k := h k
        simp [hk2]
      · simp only [hk, if_false]
        simpa [jsonRead] using h k
    · rw [Bool.not_eq_true] at ht
      simp [process_message, hget, ht]
      exact h k

/-- The snapshot/table agreement is preserved along the whole loop. -/
lemma consume_messages_preserves_agree (msgs : List Message) (st : RunState)
    (h : ∀ k, jsonRead st k = st.table k) :
    ∀ k, jsonRead (consume_messages st msgs) k =
      (consume_messages st msgs).table k := by
  induction msgs generalizing st with
  | nil => exact h
  | cons m rest ih =>
    simp only [consume_messages, List.foldl_cons] at ih ⊢
    exact ih (process_message st m) (process_message_preserves_agree st m h)

/-- One processing step never lowers a count in either sink. -/
lemma process_message_mono (st : RunState) (m : Message) (k : JVal) :
    st.table k ≤ (process_message st m).table k ∧
      jsonRead st k ≤ jsonRead (process_message st m) k := by
  rcases hget : Message.get m "keyword_mentioned" with _ | v
  · simp [process_message, hget]
  · by_cases ht : truthy v = true
    · constructor
      · simp only [process_message, hget, ht, if_true, update_keyword_count]
        by_cases hk : k = v <;> simp [hk]
      · simp only [process_message, hget, ht, if_true, jsonRead,
          update_json_file, Option.getD_some]
        by_cases hk : k = v <;> simp [hk, jsonRead]
    · rw [Bool.not_eq_true] at ht
      simp [process_message, hget, ht]

/-- A message whose `keyword_mentioned` field is absent or falsy is a
no-op for `process_message`: the early `return` fires before either store
update is invoked. -/
lemma process_message_skip (st : RunState) (m : Message)
    (h : truthyOpt (Message.get m "keyword_mentioned") = false) :
    process_message st m = st := by
  rcases hget : Message.get m "keyword_mentioned" with _ | v
  · simp [process_message, hget]
  · rw [hget] at h
    simp only [truthyOpt] at h
    simp [process_message, hget, h]

/-- A stream of well-formed payloads is consumed to completion; the pure
loop and the exception-aware loop agree there. -/
lemma consume_messages_exc_wellFormed (msgs : List Message) (st : RunState) :
    consume_messages_exc st (msgs.map Raw.wellFormed) =
      Except.ok (consume_messages st msgs) := by
  induction msgs generalizing st with
  | nil => rfl
  | cons m rest ih =>
    simp only [List.map_cons, consume_messages_exc, decodeRaw]
    simp only [consume_messages, List.foldl_cons] at ih ⊢
    exact ih (process_message st m)

/-- The last intermediate state of the trace is exactly the state
`process_message` returns. -/
lemma process_message_trace_ends (st : RunState) (m : Message) :
    (process_message_trace st m).reverse.head? = some (process_message st m) := by
  rcases hget : Message.get m "keyword_mentioned" with _ | v
  · simp [process_message_trace, process_message, hget]
  · by_cases ht : truthy v = true
    · simp [process_message_trace, process_message, hget, ht]
    · rw [Bool.not_eq_true] at ht
      simp [process_message_trace, process_message, hget, ht]

/-- A state in which the snapshot agrees with the table satisfies the lead
bound. -/
lemma leadBounded_of_eq (s : RunState) (h : ∀ k, jsonRead s k = s.table k) :
    leadBounded s :=
  ⟨fun k => le_of_eq (h k),
   ⟨JVal.jnull, by rw [h JVal.jnull]; omega, fun k _ => (h k).symm⟩⟩

/-- From a quiescent state, every intermediate point of one event's
processing satisfies the lead bound. -/
lemma traceLeadOK_of_quiescent (st : RunState) (m : Message)
    (hq : ∀ k, jsonRead st k = st.table k) : traceLeadOK st m := by
  intro s hs
  rcases hget : Message.get m "keyword_mentioned" with _ | v
  · simp only [process_message_trace, hget, List.mem_singleton] at hs
    subst hs
    exact leadBounded_of_eq _ hq
  · by_cases ht : truthy v = true
    · simp only [process_message_trace, hget, ht, if_true, List.mem_cons,
        List.not_mem_nil, or_false] at hs
      rcases hs with hs | hs | hs
      · subst hs; exact leadBounded_of_eq _ hq
      · subst hs
        constructor
        · intro k
          have h2 := hq k
          simp only [jsonRead] at h2 ⊢
          simp only [update_keyword_count]
          by_cases hk : k = v
          · subst hk
            rw [if_pos rfl]
            omega
          · rw [if_neg hk]
            omega
        · refine ⟨v, ?_, ?_⟩
          · have h2 := hq v
            simp only [jsonRead] at h2 ⊢
            simp only [update_keyword_count, if_true]
            omega
          · intro k hk
            have h2 := hq k
            simp only [jsonRead] at h2 ⊢
            simp only [update_keyword_count]
            rw [if_neg hk]
            omega
      · subst hs
        apply leadBounded_of_eq
        intro k
        have h2 := hq k
        simp only [jsonRead] at h2 ⊢
        simp only [update_json_file, update_keyword_count, Option.getD_some]
        by_cases hk : k = v
        · subst hk
          rw [if_pos rfl, if_pos rfl]
          omega
        · rw [if_neg hk, if_neg hk]
          omega
    · rw [Bool.not_eq_true] at ht
      simp only [process_message_trace, hget, ht, Bool.false_eq_true, if_false,
        List.mem_singleton] at hs
      subst hs
      exact leadBounded_of_eq _ hq

/-! ## Claims -/

/-- C1: after processing any sequence of valid events from the startup
state, the durable table count of every keyword equals the number of
occurrences of that keyword in the sequence (so the count is 1 after a
keyword's first event and grows by exactly 1 per subsequent event). -/
theorem c1_counts_equal_occurrences (msgs : List Message)
    (hv : msgs.all validEvent = true) (k : JVal) :
    (consume_messages startupRun msgs).table k = occ k msgs := by
  have h := consume_messages_table_occ msgs startupRun k hv
  simpa [startupRun] using h

/-- C1 witness: on the concrete sequence python, python, rust the table
count of python equals its occurrence count. -/
theorem c1_counts_equal_occurrences_witness :
    exSeq.all validEvent = true ∧
      (consume_messages startupRun exSeq).table (JVal.jstr "python") =
        occ (JVal.jstr "python") exSeq :=
  ⟨by decide, c1_counts_equal_occurrences exSeq (by decide) (JVal.jstr "python")⟩

/-- C2: after processing any sequence of valid events from the startup
state, the snapshot document read from the JSON file agrees with the
durable table on every keyword, even though `update_json_file` maintains
the file by an independent read-modify-write. -/
theorem c2_snapshot_equals_table (msgs : List Message)
    (_hv : msgs.all validEvent = true) (k : JVal) :
    jsonRead (consume_messages startupRun msgs) k =
      (consume_messages startupRun msgs).table k :=
  consume_messages_preserves_agree msgs startupRun
    (fun _ => by simp [jsonRead, startupRun]) k

/-- C2 witness: on the concrete sequence python, python, rust the snapshot
and the table agree on the keyword rust. -/
theorem c2_snapshot_equals_table_witness :
    exSeq.all validEvent = true ∧
      jsonRead (consume_messages startupRun exSeq) (JVal.jstr "rust") =
        (consume_messages startupRun exSeq).table (JVal.jstr "rust") :=
  ⟨by decide, c2_snapshot_equals_table exSeq (by decide) (JVal.jstr "rust")⟩

/-- C6: counts are monotonically non-decreasing over any run segment, in
both the durable table and the snapshot document: no operation of the
consumption loop decrements or deletes a count. -/
theorem c6_counts_monotone (st : RunState) (msgs : List Message) (k : JVal) :
    st.table k ≤ (consume_messages st msgs).table k ∧
      jsonRead st k ≤ jsonRead (consume_messages st msgs) k := by
  induction msgs generalizing st with
  | nil => exact ⟨le_refl _, le_refl _⟩
  | cons m rest ih =>
    have h1 := process_message_mono st m k
    have h2 := ih (process_message st m)
    simp only [consume_messages, List.foldl_cons] at h2 ⊢
    exact ⟨le_trans h1.1 h2.1, le_trans h1.2 h2.2⟩

/-- C3 counterexample: a malformed payload is not contained within its
loop iteration — the JSONDecodeError raised by the deserializer escapes
the handler-free loop and terminates the process, and the valid event that
follows it on the feed is never processed. -/
theorem c3_malformed_terminates_counterexample :
    exceptOk (consume_messages_exc startupRun
      [Raw.malformed, Raw.wellFormed evPython]) = false := rfl

/-- C3 amended: only missing-or-falsy-keyword events are contained (a
stream of well-formed payloads, valid or not, is always consumed to
completion), while an exception raised for a malformed payload propagates
out of the consumption loop, which has no per-event handler, and
terminates the process. -/
theorem c3_amended_containment_only_for_wellFormed :
    (∀ (st : RunState) (msgs : List Message),
        consume_messages_exc st (msgs.map Raw.wellFormed) =
          Except.ok (consume_messages st msgs)) ∧
      (∀ (st : RunState) (rest : List Raw),
        exceptOk (consume_messages_exc st (Raw.malformed :: rest)) = false) :=
  ⟨fun st msgs => consume_messages_exc_wellFormed msgs st,
   fun _ _ => rfl⟩

/-- C4: an event whose payload lacks `keyword_mentioned` (or has it empty)
changes no count in either store, and the remaining events of the stream
are processed exactly as if the event were not there. -/
theorem c4_missing_keyword_noop (st : RunState) (m : Message)
    (rest : List Message)
    (h : truthyOpt (Message.get m "keyword_mentioned") = false) :
    process_message st m = st ∧
      consume_messages st (m :: rest) = consume_messages st rest := by
  have hskip := process_message_skip st m h
  refine ⟨hskip, ?_⟩
  simp only [consume_messages, List.foldl_cons, hskip]

/-- C4 witness: the concrete payload with only a foo field is skipped and
the following python event is still processed. -/
theorem c4_missing_keyword_noop_witness :
    truthyOpt (Message.get evFooBar "keyword_mentioned") = false ∧
      (process_message startupRun evFooBar = startupRun ∧
        consume_messages startupRun (evFooBar :: [evPython]) =
          consume_messages startupRun [evPython]) :=
  ⟨by decide, c4_missing_keyword_noop startupRun evFooBar [evPython] (by decide)⟩

/-- C5: whatever was persisted by a prior run, `main`'s startup deletes
both artifacts and re-creates an empty table, so immediately after startup
and before any new event both stores read as the empty mapping (and the
snapshot file does not exist). -/
theorem c5_startup_resets_to_empty (fs : FS) (k : JVal) :
    FS.tableRead (main_startup fs) k = 0 ∧
      FS.jsonReadFS (main_startup fs) k = 0 ∧
      (main_startup fs).jsonFile = none :=
  ⟨rfl, rfl, rfl⟩

/-- C8: the startup reset sequence (delete prior artifacts, initialize the
counter table) is idempotent — running it twice yields the very same
state, and both times every count reads as 0 with no residual keys. -/
theorem c8_startup_reset_idempotent (fs : FS) :
    main_startup (main_startup fs) = main_startup fs ∧
      ∀ k, FS.tableRead (main_startup fs) k = 0 ∧
        FS.tableRead (main_startup (main_startup fs)) k = 0 ∧
        FS.jsonReadFS (main_startup fs) k = 0 ∧
        FS.jsonReadFS (main_startup (main_startup fs)) k = 0 :=
  ⟨rfl, fun _ => ⟨rfl, rfl, rfl, rfl⟩⟩

/-- C10: a `keyword_mentioned` value that is present but falsy under
Python truthiness (null, 0, false, the empty string) makes
`process_message` return before either store update, leaving the state
unchanged. -/
theorem c10_falsy_keyword_noop (st : RunState) (m : Message) (v : JVal)
    (hget : Message.get m "keyword_mentioned" = some v)
    (hfalsy : truthy v = false) :
    process_message st m = st := by
  apply process_message_skip
  rw [hget]
  simpa [truthyOpt] using hfalsy

/-- C10 witness: the payloads whose keyword field is null, 0 and false are
each a no-op on the startup state. -/
theorem c10_falsy_keyword_noop_witness :
    (Message.get evNull "keyword_mentioned" = some JVal.jnull ∧
      truthy JVal.jnull = false ∧
      process_message startupRun evNull = startupRun) ∧
    (Message.get evZero "keyword_mentioned" = some (JVal.jnum 0) ∧
      truthy (JVal.jnum 0) = false ∧
      process_message startupRun evZero = startupRun) ∧
    (Message.get evFalse "keyword_mentioned" = some (JVal.jbool false) ∧
      truthy (JVal.jbool false) = false ∧
      process_message startupRun evFalse = startupRun) :=
  ⟨⟨by decide, by decide,
      c10_falsy_keyword_noop startupRun evNull JVal.jnull (by decide) (by decide)⟩,
   ⟨by decide, by decide,
      c10_falsy_keyword_noop startupRun evZero (JVal.jnum 0) (by decide) (by decide)⟩,
   ⟨by decide, by decide,
      c10_falsy_keyword_noop startupRun evFalse (JVal.jbool false) (by decide) (by decide)⟩⟩

/-- C7: for every event processed from any state reachable from startup,
the durable table is updated before the snapshot (the trace order), and at
every intermediate point of that event's processing the snapshot never
leads the table while the table leads the snapshot by at most one
increment at at most one keyword. -/
theorem c7_table_leads_snapshot_by_at_most_one (msgs : List Message)
    (message : Message) :
    traceLeadOK (consume_messages startupRun msgs) message :=
  traceLeadOK_of_quiescent _ message
    (consume_messages_preserves_agree msgs startupRun (fun _ => rfl))

/-- C9 counterexample: the snapshot write is not an atomic replacement.
During the concrete write that takes the document mapping python to 1 to
the one mapping python to 2, a concurrent reader can observe the truncated
file, which is not a complete document. -/
theorem c9_not_atomic_counterexample :
    ¬ atomicReplacement
        (some (fun k => if k = JVal.jstr "python" then 1 else 0))
        (JVal.jstr "python") := by
  intro h
  rcases h FileObs.truncated (by simp [writeObservables]) with ⟨m, hm⟩
  exact FileObs.noConfusion hm

/-- C9 amended: the snapshot write is an in-place truncate-then-write, so
every write exposes to a concurrent reader a moment — right after the
truncating open call — at which the artifact holds no complete document. -/
theorem c9_amended_write_exposes_truncation (jsonFile : Option (JVal → Nat))
    (keyword : JVal) :
    FileObs.truncated ∈ writeObservables jsonFile keyword ∧
      ∀ m, FileObs.truncated ≠ FileObs.doc m :=
  ⟨by simp [writeObservables], fun _ h => FileObs.noConfusion h⟩

end ConsumerDowdle
